import Mathlib

/-!
Verification of the translation-augmented build pipeline of the deepkit/book
repository (`scripts/utils.ts`): the `Translation` cache store, the DeepL
batch fetcher `loadTranslations`, and the tree-walking transformer
`extractOrApplyTranslations` with its language-block resolver.

JavaScript objects used as string-keyed dictionaries are modelled as
association lists that preserve insertion order and update values in place,
matching the iteration order of `Object.entries` on such objects.
JavaScript truthiness on string-or-undefined values (`undefined` and `""`
are falsy) is modelled on `Option String`.
-/

set_option autoImplicit false

namespace DeepkitBook

/-- Association-list lookup: first entry with the given key (keys are unique
by construction of `setObj`, mirroring a JS object). -/
def lookupObj {α : Type} : List (String × α) → String → Option α
  | [], _ => none
  | (k, v) :: rest, key => if k = key then some v else lookupObj rest key

/-- JS object assignment `m[key] = v`: updates the value in place when the key
exists (keeping its original position, as JS objects keep first-insertion
order), otherwise appends a new entry. -/
def setObj {α : Type} : List (String × α) → String → α → List (String × α)
  | [], key, v => [(key, v)]
  | (k0, v0) :: rest, key, v =>
    if k0 = key then (key, v) :: rest else (k0, v0) :: setObj rest key v

/-- JS truthiness of a string-or-undefined value: `undefined` and `""` are falsy. -/
def truthy : Option String → Bool
  | some s => s ≠ ""
  | none => false

/-- JS `m[key]` followed by a truthiness test: yields the value only when the
key is present with a non-empty value. -/
def truthyGet (m : List (String × String)) (key : String) : Option String :=
  match lookupObj m key with
  | some v => if v = "" then none else some v
  | none => none

/-- The `languageMap` constant of `scripts/utils.ts`. -/
def languageMap : List (String × String) :=
  [("german", "DE"), ("english", "EN"), ("chinese", "ZH"), ("polish", "PL")]

/-- State of the `Translation` class of `scripts/utils.ts`.
The field `targetLanguage` is a plain string, with `""` standing for the
unset/undefined state. The field `translations` is the active sub-mapping
view (`this.translations`); in the source it aliases
`allTranslations[targetLanguage]`, so theorems about the sub-mapping after
`loadTranslations` read it through `allTranslations`. -/
structure Translation where
  translations : List (String × String)
  allTranslations : List (String × List (String × String))
  textQueue : List String
  targetLanguage : String
  fileLoaded : Bool
deriving Repr, DecidableEq

/-- Model of `Translation.setLanguage` of `scripts/utils.ts`. Here `disk` models the
optional contents of the cache file at `translationCachePath` (`none` when
the file does not exist; a parsed empty file is `some []`). The second
component is the thrown error, if any; since a JS exception leaves prior
field mutations in place, the mutated state is returned alongside it. -/
def setLanguage (disk : Option (List (String × List (String × String))))
    (lang : String) (t : Translation) : Translation × Option String :=
  if lang = "" then (t, none)
  else if t.targetLanguage = lang then (t, none)
  else
    let t1 := { t with targetLanguage := lang }
    if (lookupObj languageMap lang).isNone then
      (t1, some ("Language " ++ lang ++ " not supported"))
    else
      let t2 :=
        if ¬ t1.fileLoaded ∧ disk.isSome then
          { t1 with allTranslations := disk.getD [], fileLoaded := true }
        else t1
      let all :=
        if (lookupObj t2.allTranslations lang).isSome then t2.allTranslations
        else setObj t2.allTranslations lang []
      ({ t2 with allTranslations := all,
                 translations := (lookupObj all lang).getD [] }, none)

/-- Model of `Translation.get` of `scripts/utils.ts`: `this.translations[text] || text`.
A cached empty string is falsy in JS and also falls back to `text`. -/
def Translation.get (t : Translation) (text : String) : String :=
  match lookupObj t.translations text with
  | some v => if v = "" then text else v
  | none => text

/-- Model of `Translation.ensureTranslation`: appends to the pending queue unless a
truthy cached translation exists. -/
def ensureTranslation (t : Translation) (sourceText : String) : Translation :=
  if (truthyGet t.translations sourceText).isSome then t
  else { t with textQueue := t.textQueue ++ [sourceText] }

/-- The `map[text] = \x7b index \x7d` loop of `loadTranslations`: builds the
text-to-index correlation map, one step per queued occurrence (duplicate
texts overwrite the recorded index in place). -/
def buildIndexMapGo : List String → Nat → List (String × Nat) → List (String × Nat)
  | [], _, m => m
  | text :: rest, i, m => buildIndexMapGo rest (i + 1) (setObj m text i)

/-- The correlation map built from the (possibly truncated) text queue. -/
def buildIndexMap (queue : List String) : List (String × Nat) :=
  buildIndexMapGo queue 0 []

/-- The `Object.entries(map)` loop of `loadTranslations`: for each recorded
(text, index) entry, look up `result.translations[index]` and write the
translated text into the sub-mapping; stop with the failing index when the
response has no entry there. Writes made before a failure are kept, exactly
as the JS loop mutates the live sub-mapping before throwing. -/
def applyTranslations (arr : List String) :
    List (String × Nat) → List (String × String) → List (String × String) × Option Nat
  | [], sub => (sub, none)
  | (text, i) :: rest, sub =>
    match arr[i]? with
    | some tr => applyTranslations arr rest (setObj sub text tr)
    | none => (sub, some i)

/-- The observable fields of the DeepL HTTP response consumed by
`loadTranslations`. `translations` is `some` of the list of `.text` fields
of the body's `translations` array when the parsed JSON has one (a JS array
is truthy even when empty), and `none` when the body lacks it. -/
structure DeeplResponse where
  ok : Bool
  status : Nat
  statusText : String
  bodyText : String
  translations : Option (List String)
deriving Repr, DecidableEq

/-- Outcome of one `loadTranslations` call: the mutated store, the thrown
error if any, the contents written to the cache file (`none` when
`writeFileSync` was never reached), whether the truncation warning was
logged, the list of `text` parameters submitted, and the `target_lang`
parameter (`none` models the `languageMap[...]` lookup coming back
`undefined`, on which the JS would crash). -/
structure LoadResult where
  store : Translation
  error : Option String
  diskWrite : Option (List (String × List (String × String)))
  warned : Bool
  submitted : List String
  targetLangParam : Option String
deriving Repr, DecidableEq

/-- Model of `Translation.loadTranslations` of `scripts/utils.ts`. Here `deeplKey` models
`process.env.DEEPL_KEY`; `response` the awaited `fetch` result. -/
def loadTranslations (deeplKey : Option String) (response : DeeplResponse)
    (t : Translation) : LoadResult :=
  if t.textQueue.isEmpty || ¬ truthy deeplKey then
    { store := t, error := none, diskWrite := none, warned := false,
      submitted := [], targetLangParam := none }
  else
    let all0 :=
      if (lookupObj t.allTranslations t.targetLanguage).isSome then t.allTranslations
      else setObj t.allTranslations t.targetLanguage []
    let warned := decide (500 < t.textQueue.length)
    let queue := if 500 < t.textQueue.length then t.textQueue.take 500 else t.textQueue
    let t1 := { t with allTranslations := all0, textQueue := queue }
    let entries := buildIndexMap queue
    let langParam := lookupObj languageMap t.targetLanguage
    if ¬ response.ok then
      { store := t1,
        error := some ("HTTP deepl error: " ++ toString response.status ++ " "
          ++ response.statusText ++ ": " ++ response.bodyText),
        diskWrite := none, warned := warned, submitted := queue,
        targetLangParam := langParam }
    else
      let sub0 := (lookupObj all0 t.targetLanguage).getD []
      match response.translations with
      | some arr =>
        match applyTranslations arr entries sub0 with
        | (sub, some i) =>
          { store := { t1 with allTranslations := setObj all0 t.targetLanguage sub },
            error := some ("No translation found at index " ++ toString i),
            diskWrite := none, warned := warned, submitted := queue,
            targetLangParam := langParam }
        | (sub, none) =>
          let all1 := setObj all0 t.targetLanguage sub
          { store := { t1 with allTranslations := all1 },
            error := none, diskWrite := some all1, warned := warned,
            submitted := queue, targetLangParam := langParam }
      | none =>
        { store := t1, error := none, diskWrite := some all0, warned := warned,
          submitted := queue, targetLangParam := langParam }

/-- One block of the parsed AsciiDoc tree, as consumed by
`extractOrApplyTranslations`: a `context` kind tag, a title (sections), an
optional plain-text payload (list items), an optional list of source lines
(paragraphs), an attribute mapping, and the ordered child blocks. -/
inductive Node where
  | mk (context : String) (title : String) (text : Option String)
       (lines : Option (List String)) (attrs : List (String × String))
       (blocks : List Node)
deriving Repr

def Node.context : Node → String
  | .mk c _ _ _ _ _ => c

def Node.title : Node → String
  | .mk _ ti _ _ _ _ => ti

def Node.text : Node → Option String
  | .mk _ _ tx _ _ _ => tx

def Node.lines : Node → Option (List String)
  | .mk _ _ _ ls _ _ => ls

def Node.attrs : Node → List (String × String)
  | .mk _ _ _ _ a _ => a

def Node.blocks : Node → List Node
  | .mk _ _ _ _ _ bs => bs

def Node.withTitle : Node → String → Node
  | .mk c _ tx ls a bs, ti => .mk c ti tx ls a bs

def Node.withText : Node → Option String → Node
  | .mk c ti _ ls a bs, tx => .mk c ti tx ls a bs

def Node.withLines : Node → Option (List String) → Node
  | .mk c ti tx _ a bs, ls => .mk c ti tx ls a bs

def Node.withBlocks : Node → List Node → Node
  | .mk c ti tx ls a _, bs => .mk c ti tx ls a bs

/-- The `attr.lang` truthiness test of the resolver: the `lang` attribute
when present and non-empty. -/
def Node.langAttr (n : Node) : Option String := truthyGet n.attrs "lang"

/-- Model of `Translation.isListItem`: context is `list_item` and `doc.text` is a string. -/
def isListItem (n : Node) : Bool := n.context = "list_item" && n.text.isSome

/-- JS `\w` character class (`[A-Za-z0-9_]`). -/
def isWordChar (c : Char) : Bool := c.isAlphanum || c = '_'

/-- Character-list pass of `Translation.heading`: the regex
`(^\w\x7b1\x7d)|(\s+\w\x7b1\x7d)` with `toUpperCase` upper-cases every word
character at the start of the string or right after whitespace. The boolean
records whether the current position starts the string or follows a
whitespace character. -/
def headingChars : Bool → List Char → List Char
  | _, [] => []
  | boundary, c :: cs =>
    (if boundary && isWordChar c then c.toUpper else c) :: headingChars c.isWhitespace cs

/-- Model of `Translation.heading` of `scripts/utils.ts`. -/
def heading (text : String) : String :=
  String.mk (headingChars true text.toList)

/-- The condition on line 144 of `scripts/utils.ts`, literally as written:
`!keep && keep !== '*' && keep !== translation.targetLanguage`. Since the
first conjunct requires `keep` to be falsy, the other two conjuncts are
dead code (a falsy `keep` is never `'*'` nor a non-empty language name). -/
def sectionTranslateCond (keep : Option String) (targetLanguage : String) : Bool :=
  ¬ truthy keep && keep ≠ some "*" && keep ≠ some targetLanguage

/-- The per-line loop of the paragraph branch: replace each line that has a
truthy cached translation, enqueue the others in order. -/
def translateLines (t : Translation) : List String → List String × Translation
  | [] => ([], t)
  | l :: ls =>
    match truthyGet t.translations l with
    | some tr =>
      let r := translateLines t ls
      (tr :: r.1, r.2)
    | none =>
      let r := translateLines (ensureTranslation t l) ls
      (l :: r.1, r.2)

/-- The prose-handling section of `process` (lines 129-167 of
`scripts/utils.ts`), guarded by `targetLanguage !== 'english'`: list-item
text substitution, section-title handling, and paragraph line substitution.
The paragraph early return (`if (!lines) return doc`) is handled by the
caller `walk`; child blocks are never touched here. -/
def proseStep (t : Translation) (n : Node) : Node × Translation :=
  if t.targetLanguage = "english" then (n, t)
  else if isListItem n then
    match n.text with
    | some txt =>
      match truthyGet t.translations txt with
      | some tr => (n.withText (some tr), t)
      | none => (n, ensureTranslation t txt)
    | none => (n, t)
  else if n.context = "section" then
    let title := n.title
    let keep := lookupObj n.attrs "keep"
    if sectionTranslateCond keep t.targetLanguage then
      match truthyGet t.translations title with
      | some tr => (n.withTitle (heading tr), t)
      | none => (n, ensureTranslation t title)
    else (n, t)
  else if n.context = "paragraph" then
    match n.lines with
    | some ls =>
      let r := translateLines t ls
      (n.withLines (some r.1), r.2)
    | none => (n, t)
  else (n, t)

/-- The forward scan of the resolver (lines 184-196): starting right after an
untagged block, walk the consecutive run of `lang`-tagged siblings and
report whether one of them matches the active language; stop at the first
untagged sibling. -/
def hasOverride (lang : String) : List Node → Bool
  | [] => false
  | c :: rest =>
    match Node.langAttr c with
    | some l => if l = lang then true else hasOverride lang rest
    | none => false

mutual

/-- The `process` function registered by `extractOrApplyTranslations`
(lines 126-201 of `scripts/utils.ts`): per-node prose handling, then the
language-block resolver over the children. A paragraph without a `lines`
payload returns early, before the resolver (line 155), when the prose
section runs at all. -/
def walk (t : Translation) : Node → Node × Translation
  | n@(.mk c _ _ ls _ bs) =>
    if t.targetLanguage ≠ "english" ∧ c = "paragraph" ∧ ls = none then (n, t)
    else
      let p := proseStep t n
      let r := resolveBlocks p.2 bs
      (p.1.withBlocks r.1, r.2)

/-- The resolver loop (lines 169-199): rebuilds the child list from a
snapshot. A tagged child is kept verbatim (no recursion) exactly when its
`lang` equals the active language; an untagged child is dropped when the
consecutive tagged run after it contains a match, and otherwise kept as
`process(child)`. -/
def resolveBlocks (t : Translation) : List Node → List Node × Translation
  | [] => ([], t)
  | c :: rest =>
    match Node.langAttr c with
    | some l =>
      if l = t.targetLanguage then
        let r := resolveBlocks t rest
        (c :: r.1, r.2)
      else resolveBlocks t rest
    | none =>
      if hasOverride t.targetLanguage rest then resolveBlocks t rest
      else
        let w := walk t c
        let r := resolveBlocks w.2 rest
        (w.1 :: r.1, r.2)

end

/-- The survivor-selection rule of the resolver, extracted from the loop
structure with the recursion stripped: keeps every tagged child matching the
active language, drops every other tagged child, and keeps an untagged
child exactly when its consecutive tagged run contains no match. -/
def keptOriginals (lang : String) : List Node → List Node
  | [] => []
  | c :: rest =>
    match Node.langAttr c with
    | some l =>
      if l = lang then c :: keptOriginals lang rest else keptOriginals lang rest
    | none =>
      if hasOverride lang rest then keptOriginals lang rest
      else c :: keptOriginals lang rest

/-- The per-survivor action of the resolver: a tagged survivor is kept
verbatim, an untagged survivor is replaced by `walk` of it, threading the
store state left to right. -/
def walkKept (t : Translation) : List Node → List Node × Translation
  | [] => ([], t)
  | c :: rest =>
    match Node.langAttr c with
    | some _ =>
      let r := walkKept t rest
      (c :: r.1, r.2)
    | none =>
      let w := walk t c
      let r := walkKept w.2 rest
      (w.1 :: r.1, r.2)

mutual

/-- The walk specialised to the source-of-truth language: pure structural
language-block resolution, touching no titles, texts, lines or queue. -/
def pureResolveNode : Node → Node
  | .mk c ti tx ls a bs => .mk c ti tx ls a (pureResolveList bs)

/-- Child-list resolution in the source language: keeps `lang="english"`
tagged children verbatim and untagged children without an English override,
recursing only into the latter. -/
def pureResolveList : List Node → List Node
  | [] => []
  | c :: rest =>
    match Node.langAttr c with
    | some l =>
      if l = "english" then c :: pureResolveList rest else pureResolveList rest
    | none =>
      if hasOverride "english" rest then pureResolveList rest
      else pureResolveNode c :: pureResolveList rest

end

/-! Concrete fixtures used by witnesses and counterexamples. -/


/-- Active language `german`, empty cache and queue. -/
def tGerman : Translation := ⟨[], [], [], "german", true⟩

/-- Active language `chinese`, empty cache and queue. -/
def tChinese : Translation := ⟨[], [], [], "chinese", true⟩

/-- An untagged default paragraph block. -/
def uBlock : Node := .mk "paragraph" "" none (some ["Hello"]) [] []

/-- A first German-tagged override sibling. -/
def deBlock1 : Node := .mk "paragraph" "" none (some ["Hallo eins"]) [("lang", "german")] []

/-- A second German-tagged override sibling for the same default block. -/
def deBlock2 : Node := .mk "paragraph" "" none (some ["Hallo zwei"]) [("lang", "german")] []

/-- A German-tagged child that must be dropped when the target is Chinese. -/
def deChild : Node := .mk "paragraph" "" none (some ["Hallo"]) [("lang", "german")] []

/-- A paragraph node with children but no line payload. -/
def pNoLines : Node := .mk "paragraph" "" none none [] [deChild]

/-- A section carrying `keep="chinese"`-unrelated attribute value. -/
def keptSection : Node := .mk "section" "Setup" none none [("keep", "french")] []

/-- A section witness node for the amended C4. -/
def plainSection : Node := .mk "section" "Intro" none none [] []

/-- English store with a cached translation, to show pass-through ignores cache. -/
def tEnglish : Translation :=
  ⟨[("Hello world", "Hallo Welt")], [("english", [])], [], "english", true⟩

/-- A small tree with a section, an untagged paragraph and a German override. -/
def sampleTree : Node :=
  .mk "section" "Intro" none none []
    [Node.mk "paragraph" "" none (some ["Hello world"]) [] [],
     Node.mk "paragraph" "" none (some ["Hallo Welt"]) [("lang", "german")] []]

/-- German store with one cached entry, for the C6/C9 witnesses. -/
def tGermanCached : Translation :=
  ⟨[("Hi", "Hallo")], [("german", [("Hi", "Hallo")])], [], "german", true⟩

/-- Chinese store whose pending queue holds a duplicate source string. -/
def tChineseQ : Translation := ⟨[], [], ["Hello", "World", "Hello"], "chinese", true⟩

/-- A response with one translation per distinct queued text (the claim's mock). -/
def respTwo : DeeplResponse := ⟨true, 200, "OK", "", some ["Bonjour", "Monde"]⟩

/-- A response with one translation per submitted occurrence. -/
def respThree : DeeplResponse := ⟨true, 200, "OK", "", some ["Bonjour", "Monde", "Bonjour"]⟩

/-- Polish store with a non-empty cache and a pending line, for the C10 witness. -/
def tPolishQ : Translation :=
  ⟨[("old", "stary")], [("polish", [("old", "stary")])], ["New line"], "polish", true⟩

/-- A successful response whose JSON body has no `translations` array. -/
def respNoArr : DeeplResponse := ⟨true, 200, "OK", "", none⟩

/-- German store with 501 distinct queued strings, for the C7 witness. -/
def tBig : Translation := ⟨[], [], (List.range 501).map toString, "german", true⟩

/-- A response with 501 translations, for the C7 witness. -/
def respBig : DeeplResponse :=
  ⟨true, 200, "OK", "", some ((List.range 501).map toString)⟩

/-- German store with queue `["A", "B"]`, for the C8 scenario. -/
def tAB : Translation := ⟨[], [], ["A", "B"], "german", true⟩

/-- A response carrying only one translation for two submitted texts. -/
def respShort : DeeplResponse := ⟨true, 200, "OK", "", some ["X"]⟩

/-! Helper lemmas. -/


theorem ensureTranslation_targetLanguage (t : Translation) (s : String) :
    (ensureTranslation t s).targetLanguage = t.targetLanguage := by
  unfold ensureTranslation; split <;> rfl

theorem translateLines_targetLanguage (t : Translation) (ls : List String) :
    (translateLines t ls).2.targetLanguage = t.targetLanguage := by
  induction ls generalizing t with
  | nil => rfl
  | cons l ls ih =>
    unfold translateLines
    split <;> simp [ih, ensureTranslation_targetLanguage]

theorem proseStep_targetLanguage (t : Translation) (n : Node) :
    (proseStep t n).2.targetLanguage = t.targetLanguage := by
  unfold proseStep
  split
  · rfl
  split
  · split
    · split <;> simp [ensureTranslation_targetLanguage]
    · rfl
  split
  · dsimp only
    split
    · split <;> simp [ensureTranslation_targetLanguage]
    · rfl
  split
  · split
    · simp [translateLines_targetLanguage]
    · rfl
  rfl

theorem proseStep_blocks (t : Translation) (n : Node) :
    (proseStep t n).1.blocks = n.blocks := by
  cases n with
  | mk c ti tx ls a bs =>
    unfold proseStep
    split
    · rfl
    split
    · split
      · split <;> simp [Node.withText, Node.blocks]
      · rfl
    split
    · dsimp only
      split
      · split <;> simp [Node.withTitle, Node.blocks]
      · rfl
    split
    · split
      · simp [Node.withLines, Node.blocks]
      · rfl
    rfl

theorem proseStep_english (t : Translation) (n : Node)
    (he : t.targetLanguage = "english") : proseStep t n = (n, t) := by
  unfold proseStep; rw [if_pos he]

theorem resolveBlocks_targetLanguage : ∀ (t : Translation) (cs : List Node),
    (resolveBlocks t cs).2.targetLanguage = t.targetLanguage := by
  refine resolveBlocks.induct
    (fun t n => (walk t n).2.targetLanguage = t.targetLanguage) _
    ?_ ?_ ?_ ?_ ?_ ?_ ?_
  · intro t c ti tx ls a bs h
    simp [walk, h]
  · intro t c ti tx ls a bs h p ih
    simp only [walk, if_neg h]
    simp only [ih]
    exact proseStep_targetLanguage t _
  · intro t
    simp [resolveBlocks]
  · intro t c rest h ih
    simp [resolveBlocks, h, ih]
  · intro t c rest s h hne ih
    simp [resolveBlocks, h, hne, ih]
  · intro t c rest h hov ih
    simp [resolveBlocks, h, hov, ih]
  · intro t c rest h hov w ih1 ih2
    simp only [resolveBlocks, h, hov]
    simp only [Bool.false_eq_true, if_false, ih2]
    exact ih1

theorem walk_targetLanguage (t : Translation) (n : Node) :
    (walk t n).2.targetLanguage = t.targetLanguage := by
  cases n with
  | mk c ti tx ls a bs =>
    by_cases h : t.targetLanguage ≠ "english" ∧ c = "paragraph" ∧ ls = none
    · simp [walk, h]
    · simp only [walk, if_neg h]
      simp [resolveBlocks_targetLanguage, proseStep_targetLanguage]

theorem resolveBlocks_eq_walkKept : ∀ (t : Translation) (cs : List Node),
    resolveBlocks t cs = walkKept t (keptOriginals t.targetLanguage cs) := by
  intro t cs
  induction cs generalizing t with
  | nil => rfl
  | cons c rest ih =>
    cases h : c.langAttr with
    | some l =>
      by_cases hl : l = t.targetLanguage
      · subst hl
        simp [resolveBlocks, keptOriginals, walkKept, h, ih]
      · simp [resolveBlocks, keptOriginals, walkKept, h, hl, ih]
    | none =>
      by_cases hov : hasOverride t.targetLanguage rest
      · simp [resolveBlocks, keptOriginals, walkKept, h, hov, ih]
      · simp only [resolveBlocks, keptOriginals, walkKept, h, hov]
        simp only [Bool.false_eq_true, if_false]
        rw [ih, walk_targetLanguage]

theorem resolveBlocks_english : ∀ (t : Translation) (cs : List Node),
    t.targetLanguage = "english" → resolveBlocks t cs = (pureResolveList cs, t) := by
  refine resolveBlocks.induct
    (fun t n => t.targetLanguage = "english" → walk t n = (pureResolveNode n, t)) _
    ?_ ?_ ?_ ?_ ?_ ?_ ?_
  · intro t c ti tx ls a bs h he
    exact absurd he h.1
  · intro t c ti tx ls a bs h p ih he
    have h1 : resolveBlocks (proseStep t (Node.mk c ti tx ls a bs)).2 bs
        = (pureResolveList bs, (proseStep t (Node.mk c ti tx ls a bs)).2) := by
      refine ih ?_
      show (proseStep t (Node.mk c ti tx ls a bs)).2.targetLanguage = "english"
      rw [proseStep_targetLanguage]; exact he
    rw [proseStep_english t _ he] at h1
    simp only [walk, if_neg h]
    simp only [proseStep_english t _ he]
    simp [h1, pureResolveNode, Node.withBlocks]
  · intro t he
    simp [resolveBlocks, pureResolveList]
  · intro t c rest h ih he
    rw [he] at h
    simp [resolveBlocks, pureResolveList, h, he, ih he]
  · intro t c rest s h hne ih he
    rw [he] at hne
    simp [resolveBlocks, pureResolveList, h, hne, he, ih he]
  · intro t c rest h hov ih he
    rw [he] at hov
    simp [resolveBlocks, pureResolveList, h, hov, he, ih he]
  · intro t c rest h hov w ih1 ih2 he
    rw [he] at hov
    have hw : walk t c = (pureResolveNode c, t) := ih1 he
    have h2 : resolveBlocks (walk t c).2 rest
        = (pureResolveList rest, (walk t c).2) := by
      refine ih2 ?_
      show (walk t c).2.targetLanguage = "english"
      rw [walk_targetLanguage]; exact he
    rw [hw] at h2
    simp only [resolveBlocks, pureResolveList, h, hov, he, Bool.false_eq_true, if_false]
    simp [hw, h2]

theorem walk_english (t : Translation) (n : Node)
    (he : t.targetLanguage = "english") : walk t n = (pureResolveNode n, t) := by
  cases n with
  | mk c ti tx ls a bs =>
    have h : ¬(t.targetLanguage ≠ "english" ∧ c = "paragraph" ∧ ls = none) := by
      intro hc; exact hc.1 he
    simp only [walk, if_neg h]
    simp only [proseStep_english t _ he]
    simp [resolveBlocks_english t bs he, pureResolveNode, Node.withBlocks]

theorem lookupObj_setObj_self {α : Type} (m : List (String × α)) (k : String) (v : α) :
    lookupObj (setObj m k v) k = some v := by
  induction m with
  | nil => simp [setObj, lookupObj]
  | cons p rest ih =>
    obtain ⟨a, b⟩ := p
    by_cases ha : a = k
    · simp [setObj, ha, lookupObj]
    · simp [setObj, ha, lookupObj, ih]

theorem lookupObj_setObj_ne {α : Type} (m : List (String × α)) (k k' : String) (v : α)
    (hne : k' ≠ k) :
    lookupObj (setObj m k v) k' = lookupObj m k' := by
  induction m with
  | nil => simp [setObj, lookupObj, Ne.symm hne]
  | cons p rest ih =>
    obtain ⟨a, b⟩ := p
    by_cases ha : a = k
    · subst ha
      simp [setObj, lookupObj, Ne.symm hne]
    · simp [setObj, ha, lookupObj, ih]

theorem mem_setObj {α : Type} {m : List (String × α)} {k : String} {v : α} {p : String × α}
    (h : p ∈ setObj m k v) : p ∈ m ∨ p = (k, v) := by
  induction m with
  | nil => simpa [setObj] using h
  | cons q rest ih =>
    obtain ⟨a, b⟩ := q
    by_cases ha : a = k
    · simp only [setObj, if_pos ha] at h
      rcases List.mem_cons.mp h with h | h
      · exact Or.inr h
      · exact Or.inl (List.mem_cons_of_mem _ h)
    · simp only [setObj, if_neg ha] at h
      rcases List.mem_cons.mp h with h | h
      · exact Or.inl (h ▸ List.mem_cons_self _ _)
      · rcases ih h with h | h
        · exact Or.inl (List.mem_cons_of_mem _ h)
        · exact Or.inr h

theorem mem_setObj_self {α : Type} (m : List (String × α)) (k : String) (v : α) :
    (k, v) ∈ setObj m k v := by
  induction m with
  | nil => simp [setObj]
  | cons q rest ih =>
    obtain ⟨a, b⟩ := q
    by_cases ha : a = k
    · simp [setObj, ha]
    · simp only [setObj, if_neg ha, List.mem_cons]
      exact Or.inr ih

theorem mem_setObj_of_mem {α : Type} {m : List (String × α)} {k key : String} {v w : α}
    (hw : (key, w) ∈ m) (hne : key ≠ k) : (key, w) ∈ setObj m k v := by
  induction m with
  | nil => simp at hw
  | cons q rest ih =>
    obtain ⟨a, b⟩ := q
    rcases List.mem_cons.mp hw with h | h
    · have ha : a ≠ k := by
        rw [Prod.mk.injEq] at h
        exact h.1 ▸ hne
      simp only [setObj, if_neg ha, List.mem_cons]
      exact Or.inl h
    · by_cases ha : a = k
      · simp only [setObj, if_pos ha, List.mem_cons]
        exact Or.inr h
      · simp only [setObj, if_neg ha, List.mem_cons]
        exact Or.inr (ih h)

theorem key_mem_setObj {α : Type} (m : List (String × α)) (k : String) (v : α) (key : String) :
    (∃ w, (key, w) ∈ setObj m k v) ↔ key = k ∨ ∃ w, (key, w) ∈ m := by
  constructor
  · rintro ⟨w, hw⟩
    rcases mem_setObj hw with h | h
    · exact Or.inr ⟨w, h⟩
    · exact Or.inl (congrArg Prod.fst h)
  · rintro (rfl | ⟨w, hw⟩)
    · exact ⟨v, mem_setObj_self m key v⟩
    · by_cases hk : key = k
      · exact ⟨v, hk ▸ mem_setObj_self m k v⟩
      · exact ⟨w, mem_setObj_of_mem hw hk⟩

theorem lookupObj_setObj_isSome {α : Type} (m : List (String × α)) (k key : String) (v : α) :
    (lookupObj (setObj m k v) key).isSome ↔ key = k ∨ (lookupObj m key).isSome := by
  by_cases hk : key = k
  · subst hk
    simp [lookupObj_setObj_self]
  · rw [lookupObj_setObj_ne m k key v hk]
    simp [hk]

theorem applyTranslations_ok (arr : List String) :
    ∀ (entries : List (String × Nat)) (sub : List (String × String)),
    (∀ p ∈ entries, p.2 < arr.length) →
    (applyTranslations arr entries sub).2 = none
    ∧ ∀ key, (lookupObj (applyTranslations arr entries sub).1 key).isSome
        ↔ (∃ i, (key, i) ∈ entries) ∨ (lookupObj sub key).isSome := by
  intro entries
  induction entries with
  | nil =>
    intro sub h
    exact ⟨rfl, fun key => by simp [applyTranslations]⟩
  | cons p rest ih =>
    intro sub h
    obtain ⟨tx, i⟩ := p
    have hi : i < arr.length := h (tx, i) (List.mem_cons_self _ _)
    have harr : arr[i]? = some arr[i] := List.getElem?_eq_getElem hi
    have hrest : ∀ q ∈ rest, q.2 < arr.length :=
      fun q hq => h q (List.mem_cons_of_mem _ hq)
    obtain ⟨he, hiff⟩ := ih (setObj sub tx (arr[i])) hrest
    constructor
    · simpa [applyTranslations, harr] using he
    · intro key
      rw [show applyTranslations arr ((tx, i) :: rest) sub
            = applyTranslations arr rest (setObj sub tx (arr[i])) by
          simp [applyTranslations, harr]]
      rw [hiff key, lookupObj_setObj_isSome]
      constructor
      · rintro (⟨j, hj⟩ | hk | hs)
        · exact Or.inl ⟨j, List.mem_cons_of_mem _ hj⟩
        · exact Or.inl ⟨i, hk ▸ List.mem_cons_self _ _⟩
        · exact Or.inr hs
      · rintro (⟨j, hj⟩ | hs)
        · rcases List.mem_cons.mp hj with hj | hj
          · rw [Prod.mk.injEq] at hj
            exact Or.inr (Or.inl hj.1)
          · exact Or.inl ⟨j, hj⟩
        · exact Or.inr (Or.inr hs)

theorem applyTranslations_fail (arr : List String) :
    ∀ (pre : List (String × Nat)) (tx : String) (i : Nat)
      (post : List (String × Nat)) (sub : List (String × String)),
    (∀ p ∈ pre, p.2 < arr.length) → arr.length ≤ i →
    applyTranslations arr (pre ++ (tx, i) :: post) sub
      = ((applyTranslations arr pre sub).1, some i) := by
  intro pre
  induction pre with
  | nil =>
    intro tx i post sub hpre hi
    have : arr[i]? = none := by
      rw [List.getElem?_eq_none_iff]
      exact hi
    simp [applyTranslations, this]
  | cons p pre ih =>
    intro tx i post sub hpre hi
    obtain ⟨t0, j⟩ := p
    have hj : j < arr.length := hpre (t0, j) (List.mem_cons_self _ _)
    have harr : arr[j]? = some arr[j] := List.getElem?_eq_getElem hj
    have hpre' : ∀ q ∈ pre, q.2 < arr.length :=
      fun q hq => hpre q (List.mem_cons_of_mem _ hq)
    simp only [List.cons_append, applyTranslations, harr]
    exact ih tx i post (setObj sub t0 (arr[j])) hpre' hi

theorem buildIndexMapGo_lt :
    ∀ (q : List String) (i : Nat) (m : List (String × Nat)),
    (∀ p ∈ m, p.2 < i) →
    ∀ p ∈ buildIndexMapGo q i m, p.2 < i + q.length := by
  intro q
  induction q with
  | nil =>
    intro i m hm p hp
    simp only [buildIndexMapGo] at hp
    simpa using hm p hp
  | cons tx rest ih =>
    intro i m hm p hp
    have hm' : ∀ p ∈ setObj m tx i, p.2 < i + 1 := by
      intro p hp
      rcases mem_setObj hp with h | h
      · exact Nat.lt_succ_of_lt (hm p h)
      · rw [h]
        exact Nat.lt_succ_self i
    have := ih (i + 1) (setObj m tx i) hm' p hp
    simp only [List.length_cons]
    omega

theorem key_mem_buildIndexMapGo :
    ∀ (q : List String) (i : Nat) (m : List (String × Nat)) (key : String),
    (∃ j, (key, j) ∈ buildIndexMapGo q i m) ↔ key ∈ q ∨ ∃ j, (key, j) ∈ m := by
  intro q
  induction q with
  | nil =>
    intro i m key
    simp [buildIndexMapGo]
  | cons tx rest ih =>
    intro i m key
    rw [show buildIndexMapGo (tx :: rest) i m
          = buildIndexMapGo rest (i + 1) (setObj m tx i) from rfl]
    rw [ih (i + 1) (setObj m tx i) key, key_mem_setObj]
    constructor
    · rintro (h | hk | h)
      · exact Or.inl (List.mem_cons_of_mem _ h)
      · exact Or.inl (hk ▸ List.mem_cons_self _ _)
      · exact Or.inr h
    · rintro (h | h)
      · rcases List.mem_cons.mp h with h | h
        · exact Or.inr (Or.inl h)
        · exact Or.inl h
      · exact Or.inr (Or.inr h)

/-! Claim theorems. -/


/-- Counterexample to C1. With pending queue `["Hello", "World", "Hello"]` and a
response holding one translation per distinct text (`["Bonjour", "Monde"]`),
`loadTranslations` does not succeed: the request carries three `text`
parameters (duplicates are not collapsed), the correlation map records the
last occurrence index 2 for `"Hello"`, the lookup at index 2 fails, the
missing-index error is thrown, no disk write happens, and the active
sub-mapping stays empty instead of becoming the claimed mapping. -/
theorem c1_counterexample :
    (loadTranslations (some "key") respTwo tChineseQ).error
      = some ("No translation found at index " ++ toString 2)
    ∧ (loadTranslations (some "key") respTwo tChineseQ).submitted
      = ["Hello", "World", "Hello"]
    ∧ lookupObj (loadTranslations (some "key") respTwo tChineseQ).store.allTranslations
        "chinese" = some []
    ∧ (loadTranslations (some "key") respTwo tChineseQ).diskWrite = none := by
  refine ⟨rfl, rfl, rfl, rfl⟩

/-- C1, amended. `loadTranslations` submits one `text` parameter per queued
occurrence, duplicates included; the text-to-index map keeps, for each
distinct text, the index of its last occurrence. Given a response with one
translation per submitted occurrence (`["Bonjour", "Monde", "Bonjour"]`),
the call succeeds and the active sub-mapping equals
`Hello -> Bonjour, World -> Monde`. -/
theorem c1_amended :
    (loadTranslations (some "key") respThree tChineseQ).error = none
    ∧ (loadTranslations (some "key") respThree tChineseQ).submitted
      = ["Hello", "World", "Hello"]
    ∧ lookupObj (loadTranslations (some "key") respThree tChineseQ).store.allTranslations
        "chinese" = some [("Hello", "Bonjour"), ("World", "Monde")]
    ∧ lookupObj (buildIndexMap tChineseQ.textQueue) "Hello" = some 2 := by
  refine ⟨rfl, rfl, rfl, rfl⟩

/-- Counterexample to C2. For the child list `[untagged, german, german]` with
active language `german`, both tagged siblings survive: the resolver keeps
every matching tagged block, so a group contributes two (distinct) blocks,
refuting both "at most one block from each group" and "first matching
tagged sibling wins". -/
theorem c2_counterexample :
    (resolveBlocks tGerman [uBlock, deBlock1, deBlock2]).1 = [deBlock1, deBlock2]
    ∧ deBlock1 ≠ deBlock2 := by
  constructor
  · simp [resolveBlocks, walk, proseStep, tGerman, uBlock, deBlock1, deBlock2,
      Node.langAttr, Node.attrs, truthyGet, lookupObj, hasOverride]
  · intro h
    simp [deBlock1, deBlock2] at h

/-- C2, amended. After the resolver runs, the surviving children are exactly:
every lang-tagged block whose `lang` equals the active language, kept
verbatim (all duplicates survive, not only the first), plus every untagged
block whose consecutive run of following tagged siblings contains no match,
kept after recursive processing; all other blocks are dropped and relative
order is preserved. Formally the resolver equals the selection
`keptOriginals` followed by the per-survivor action `walkKept`. -/
theorem c2_amended (t : Translation) (cs : List Node) :
    resolveBlocks t cs = walkKept t (keptOriginals t.targetLanguage cs) :=
  resolveBlocks_eq_walkKept t cs

/-- C3: the claim matches the evident intent, but the code has a slip. In
`!keep && keep !== '*' && keep !== targetLanguage` the first conjunct
forces `keep` to be falsy, making the other two conjuncts dead code, so a
section with `keep="french"` under active language `chinese` is neither
translated nor enqueued: `walk` returns the section and the store
completely unchanged, where the claim requires the title to be enqueued. -/
theorem c3_keep_dead_code :
    sectionTranslateCond (lookupObj keptSection.attrs "keep") tChinese.targetLanguage = false
    ∧ walk tChinese keptSection = (keptSection, tChinese) := by
  constructor
  · rfl
  · simp [walk, proseStep, resolveBlocks, tChinese, keptSection, isListItem,
      sectionTranslateCond, truthy, lookupObj, Node.context, Node.text, Node.lines,
      Node.attrs, Node.withBlocks, Node.blocks]

/-- Counterexample to C4. A paragraph node without a `lines` payload returns
early (line 155 of `scripts/utils.ts`), before the resolver: its
German-tagged child survives a walk with active language `chinese` and is
not recursed into, refuting "for every node ... the resolver is applied to
that node's children". -/
theorem c4_counterexample :
    walk tChinese pNoLines = (pNoLines, tChinese)
    ∧ pNoLines.blocks = [deChild]
    ∧ deChild.langAttr = some "german" := by
  refine ⟨?_, rfl, rfl⟩
  simp [walk, tChinese, pNoLines, Node.lines, Node.context]

/-- C4, amended. For every visited node except a paragraph without a
line-oriented payload under a non-source active language, the walk performs
the per-node prose handling, applies the language-block resolver to the
children, recurses into every surviving untagged child, and keeps surviving
lang-tagged children verbatim without recursing into them. -/
theorem c4_amended (t : Translation) (n : Node)
    (h : ¬(t.targetLanguage ≠ "english" ∧ n.context = "paragraph" ∧ n.lines = none)) :
    walk t n =
      ((proseStep t n).1.withBlocks
        (walkKept (proseStep t n).2 (keptOriginals t.targetLanguage n.blocks)).1,
       (walkKept (proseStep t n).2 (keptOriginals t.targetLanguage n.blocks)).2) := by
  cases n with
  | mk c ti tx ls a bs =>
    simp only [Node.context, Node.lines] at h
    simp only [walk, if_neg h, Node.blocks]
    rw [resolveBlocks_eq_walkKept, proseStep_targetLanguage]

/-- Witness for the amended C4 at a concrete section node. -/
theorem c4_amended_witness :
    walk tChinese plainSection =
      ((proseStep tChinese plainSection).1.withBlocks
        (walkKept (proseStep tChinese plainSection).2
          (keptOriginals tChinese.targetLanguage plainSection.blocks)).1,
       (walkKept (proseStep tChinese plainSection).2
          (keptOriginals tChinese.targetLanguage plainSection.blocks)).2) :=
  c4_amended tChinese plainSection (by decide)

/-- C5. When the active target language equals the source-of-truth language
(`english`), the walk returns the store unchanged (so nothing is enqueued,
for any cache contents) and the tree transformed by `pureResolveNode`,
which only performs structural language-block resolution and leaves every
title, list-item text and paragraph line untouched. -/
theorem c5_pass_through (t : Translation) (n : Node)
    (he : t.targetLanguage = "english") :
    walk t n = (pureResolveNode n, t) :=
  walk_english t n he

/-- Witness for C5 on a tree with a section, an untagged paragraph whose line
is cached, and a German override block. -/
theorem c5_pass_through_witness :
    walk tEnglish sampleTree = (pureResolveNode sampleTree, tEnglish) :=
  c5_pass_through tEnglish sampleTree rfl

/-- C6. For every string absent from the active sub-mapping, `get` returns the
string itself unchanged (identity fallback); the model is a total function,
so no exception is possible. -/
theorem c6_identity_fallback (t : Translation) (text : String)
    (h : lookupObj t.translations text = none) :
    Translation.get t text = text := by
  unfold Translation.get
  rw [h]

/-- Witness for C6 at a concrete store and an uncached string. -/
theorem c6_identity_fallback_witness :
    Translation.get tGermanCached "unseen sentence" = "unseen sentence" :=
  c6_identity_fallback tGermanCached "unseen sentence" rfl

/-- C7. When the pending queue holds more than 500 items, `loadTranslations`
logs the truncation warning, truncates the stored queue to its first 500
items in order, submits exactly those 500 `text` parameters, and — for a
fresh language sub-mapping and a successful, long-enough response — ends
with a cache write whose active sub-mapping holds a translation exactly for
the first 500 queued strings; the remainder is dropped for this run. -/
theorem c7_truncation (deeplKey : Option String) (resp : DeeplResponse)
    (arr : List String) (t : Translation)
    (hq : 500 < t.textQueue.length)
    (hfresh : lookupObj t.allTranslations t.targetLanguage = none)
    (hkey : truthy deeplKey = true)
    (hok : resp.ok = true)
    (harr : resp.translations = some arr)
    (hlen : 500 ≤ arr.length) :
    (loadTranslations deeplKey resp t).warned = true
    ∧ (loadTranslations deeplKey resp t).submitted = t.textQueue.take 500
    ∧ (loadTranslations deeplKey resp t).store.textQueue = t.textQueue.take 500
    ∧ (loadTranslations deeplKey resp t).error = none
    ∧ (loadTranslations deeplKey resp t).diskWrite
      = some (loadTranslations deeplKey resp t).store.allTranslations
    ∧ ∀ key,
        (lookupObj ((lookupObj (loadTranslations deeplKey resp t).store.allTranslations
            t.targetLanguage).getD []) key).isSome
          ↔ key ∈ t.textQueue.take 500 := by
  have hq' : t.textQueue.isEmpty = false := by
    cases hqq : t.textQueue with
    | nil => rw [hqq] at hq; simp at hq
    | cons a l => rfl
  have hQlen : (t.textQueue.take 500).length = 500 := by
    rw [List.length_take]
    omega
  have hidx : ∀ p ∈ buildIndexMap (t.textQueue.take 500), p.2 < arr.length := by
    intro p hp
    have := buildIndexMapGo_lt (t.textQueue.take 500) 0 [] (by simp) p hp
    rw [hQlen] at this
    omega
  obtain ⟨herr, hiff⟩ := applyTranslations_ok arr (buildIndexMap (t.textQueue.take 500)) [] hidx
  rcases hap : applyTranslations arr (buildIndexMap (t.textQueue.take 500)) [] with ⟨sub, e⟩
  rw [hap] at herr hiff
  subst herr
  have hfresh' : (lookupObj t.allTranslations t.targetLanguage).isSome = false := by
    rw [hfresh]; rfl
  simp [loadTranslations, hq', hkey, hok, harr, hq, hfresh', hap,
    lookupObj_setObj_self]
  intro key
  rw [hiff key]
  rw [show (buildIndexMap (t.textQueue.take 500)) = buildIndexMapGo (t.textQueue.take 500) 0 [] from rfl,
    key_mem_buildIndexMapGo]
  simp [lookupObj]

/-- Witness for C7 with 501 distinct queued strings. -/
theorem c7_truncation_witness :
    (loadTranslations (some "key") respBig tBig).warned = true
    ∧ (loadTranslations (some "key") respBig tBig).submitted = tBig.textQueue.take 500
    ∧ (loadTranslations (some "key") respBig tBig).store.textQueue = tBig.textQueue.take 500
    ∧ (loadTranslations (some "key") respBig tBig).error = none
    ∧ (loadTranslations (some "key") respBig tBig).diskWrite
      = some (loadTranslations (some "key") respBig tBig).store.allTranslations
    ∧ ∀ key,
        (lookupObj ((lookupObj (loadTranslations (some "key") respBig tBig).store.allTranslations
            tBig.targetLanguage).getD []) key).isSome
          ↔ key ∈ tBig.textQueue.take 500 :=
  c7_truncation (some "key") respBig ((List.range 501).map toString) tBig
    (by simp [tBig]) rfl rfl rfl rfl (by simp [respBig])

/-- Counterexample to C8. With queue `["A", "B"]` and a response holding a
single translation, the call fails with the missing-index error and no disk
write, but the in-memory active sub-mapping does record the partial result
`A -> X` written before the failing index, refuting "performs no partial
cache write: neither the on-disk cache file nor the translation mapping". -/
theorem c8_counterexample :
    (loadTranslations (some "key") respShort tAB).error
      = some ("No translation found at index " ++ toString 1)
    ∧ (loadTranslations (some "key") respShort tAB).diskWrite = none
    ∧ lookupObj ((lookupObj (loadTranslations (some "key") respShort tAB).store.allTranslations
        "german").getD []) "A" = some "X" :=
  ⟨rfl, rfl, rfl⟩

/-- C8, amended. When the response lacks an entry at the index recorded for
some submitted text, `loadTranslations` fails with the
missing-translation-at-index error and never reaches the on-disk write, but
the in-memory sub-mapping keeps the translations written for the entries
preceding the failing one. -/
theorem c8_amended (deeplKey : Option String) (resp : DeeplResponse)
    (arr : List String) (t : Translation)
    (pre : List (String × Nat)) (tx : String) (i : Nat) (post : List (String × Nat))
    (hq : t.textQueue ≠ [])
    (hsmall : t.textQueue.length ≤ 500)
    (hkey : truthy deeplKey = true)
    (hok : resp.ok = true)
    (harr : resp.translations = some arr)
    (hsplit : buildIndexMap t.textQueue = pre ++ (tx, i) :: post)
    (hpre : ∀ p ∈ pre, p.2 < arr.length)
    (hi : arr.length ≤ i) :
    (loadTranslations deeplKey resp t).error
      = some ("No translation found at index " ++ toString i)
    ∧ (loadTranslations deeplKey resp t).diskWrite = none
    ∧ lookupObj (loadTranslations deeplKey resp t).store.allTranslations t.targetLanguage
      = some (applyTranslations arr pre
          ((lookupObj t.allTranslations t.targetLanguage).getD [])).1 := by
  have hq' : t.textQueue.isEmpty = false := by
    cases hqq : t.textQueue with
    | nil => exact absurd hqq hq
    | cons a l => rfl
  have hq500 : ¬(500 < t.textQueue.length) := by omega
  by_cases hfresh : (lookupObj t.allTranslations t.targetLanguage).isSome
  · obtain ⟨sub0, hsub0⟩ := Option.isSome_iff_exists.mp hfresh
    have hfail := applyTranslations_fail arr pre tx i post sub0 hpre hi
    simp [loadTranslations, hq', hkey, hok, harr, hq500, hfresh, hsub0,
      hsplit, hfail, lookupObj_setObj_self]
  · have hfresh' : (lookupObj t.allTranslations t.targetLanguage).isSome = false := by
      simpa using hfresh
    have hnone : lookupObj t.allTranslations t.targetLanguage = none :=
      Option.not_isSome_iff_eq_none.mp hfresh
    have hfail := applyTranslations_fail arr pre tx i post [] hpre hi
    simp [loadTranslations, hq', hkey, hok, harr, hq500, hfresh', hnone,
      hsplit, hfail, lookupObj_setObj_self]

/-- Witness for the amended C8 at the concrete two-entry scenario. -/
theorem c8_amended_witness :
    (loadTranslations (some "key") respShort tAB).error
      = some ("No translation found at index " ++ toString 1)
    ∧ (loadTranslations (some "key") respShort tAB).diskWrite = none
    ∧ lookupObj (loadTranslations (some "key") respShort tAB).store.allTranslations
        tAB.targetLanguage
      = some (applyTranslations ["X"] [("A", 0)]
          ((lookupObj tAB.allTranslations tAB.targetLanguage).getD [])).1 :=
  c8_amended (some "key") respShort ["X"] tAB [("A", 0)] "B" 1 []
    (by decide) (by decide) rfl rfl rfl rfl (by decide) (by decide)

/-- C9. The setLanguage call with a non-empty unsupported language different from the
current one throws the unsupported-language error only after
`targetLanguage` has been overwritten with the rejected identifier, while
`translations` still holds the previous language's sub-mapping; calling it
again with the same identifier then hits the early-equality return and
reports no error. -/
theorem c9_setLanguage_non_atomic
    (disk disk2 : Option (List (String × List (String × String))))
    (lang : String) (t : Translation)
    (h1 : lang ≠ "") (h2 : t.targetLanguage ≠ lang)
    (h3 : lookupObj languageMap lang = none) :
    setLanguage disk lang t =
      ({ t with targetLanguage := lang },
       some ("Language " ++ lang ++ " not supported"))
    ∧ setLanguage disk2 lang { t with targetLanguage := lang } =
      ({ t with targetLanguage := lang }, none) := by
  constructor
  · unfold setLanguage
    rw [if_neg h1, if_neg h2, h3]
    rfl
  · unfold setLanguage
    rw [if_neg h1, if_pos rfl]

/-- Witness for C9 with current language `german` and rejected `klingon`. -/
theorem c9_setLanguage_non_atomic_witness :
    setLanguage none "klingon" tGermanCached =
      ({ tGermanCached with targetLanguage := "klingon" },
       some ("Language " ++ "klingon" ++ " not supported"))
    ∧ setLanguage none "klingon" { tGermanCached with targetLanguage := "klingon" } =
      ({ tGermanCached with targetLanguage := "klingon" }, none) :=
  c9_setLanguage_non_atomic none none "klingon" tGermanCached
    (by decide) (by decide) rfl

/-- C10. On a successful response whose JSON body lacks a `translations`
array, `loadTranslations` raises no error, leaves `allTranslations` (and
hence the active sub-mapping, which exists after `setLanguage`) unchanged,
and still overwrites the cache file with that unchanged structure. -/
theorem c10_missing_translations_array (deeplKey : Option String)
    (resp : DeeplResponse) (t : Translation)
    (hq : t.textQueue ≠ [])
    (hkey : truthy deeplKey = true)
    (hok : resp.ok = true)
    (harr : resp.translations = none)
    (hsub : (lookupObj t.allTranslations t.targetLanguage).isSome) :
    (loadTranslations deeplKey resp t).error = none
    ∧ (loadTranslations deeplKey resp t).diskWrite = some t.allTranslations
    ∧ (loadTranslations deeplKey resp t).store.allTranslations = t.allTranslations := by
  have hq' : t.textQueue.isEmpty = false := by
    simpa [List.isEmpty_iff] using hq
  simp [loadTranslations, hq', hkey, hok, harr, hsub]

/-- Witness for C10 with a cached Polish entry and one pending line. -/
theorem c10_missing_translations_array_witness :
    (loadTranslations (some "key") respNoArr tPolishQ).error = none
    ∧ (loadTranslations (some "key") respNoArr tPolishQ).diskWrite
      = some tPolishQ.allTranslations
    ∧ (loadTranslations (some "key") respNoArr tPolishQ).store.allTranslations
      = tPolishQ.allTranslations :=
  c10_missing_translations_array (some "key") respNoArr tPolishQ
    (by decide) rfl rfl rfl rfl

end DeepkitBook
